import Mathlib

/-!
# Verification of the stock screening / forecasting pipeline

A shallow embedding of the repository's core algorithms, and proofs of the
specification's claims about them.

* `Predictor` embeds `predictor.py` (`FinancialPredictor._create_sequences`,
  `predict_pe`, `predict_stock_price`).
* `Calculator` embeds `calculator.py` (`get_eps_from_web` fallback handling and
  `calculate_pe_ratio`).
* `Fetcher` embeds the retry loops of `calculator.get_eps_from_web` and
  `pages/1_选股系统.get_stock_basic_info`.
* `Screening` embeds `pages/1_选股系统.select_stocks` and
  `calculate_technical_indicators`.

Python floats are modelled as `ℚ` (the claims under study concern counts,
ordering and comparisons, not floating-point rounding).  Timestamps are
modelled as `ℤ` indices at the working granularity (one unit = one day for
daily forecasts, one quarter for quarterly ones); pandas resampling
(`series.resample('Q').last()`) happens before the embedded functions run, so
every series argument below is the series *after* any requested resampling,
which is also how the claims are phrased.  External effects are oracles:
network outcomes, `random` draws and the scikit-learn regression model
(`fit`/`predict`, a pluggable capability per the spec) are explicit arguments.
-/

namespace Predictor

/-- `FinancialPredictor.sequence_length = 4`: the configured maximum window. -/
def sequence_length : ℕ := 4

/-- `FinancialPredictor._create_sequences(data, seq_length)`:
`for i in range(len(data) - seq_length): X.append(data.iloc[i:i+seq_length].values);
y.append(data.iloc[i+seq_length])`.  A Python `range` of a negative number is
empty, matching truncated `ℕ` subtraction. -/
def create_sequences (data : List ℚ) (seq_length : ℕ) : List (List ℚ) × List ℚ :=
  ((List.range (data.length - seq_length)).map fun i => (data.drop i).take seq_length,
   (List.range (data.length - seq_length)).map fun i => data.getD (i + seq_length) 0)

/-- `actual_sequence_length = min(self.sequence_length, available_sequence_length)`
where `available_sequence_length = len(series) - 1`. -/
def actual_sequence_length (n : ℕ) : ℕ := min sequence_length (n - 1)

/-- The iterative multi-step prediction loop of `predict_pe` /
`predict_stock_price`: predict from the current window, append, then
`np.roll(last_sequence, -1); last_sequence[0, -1] = next_pred` (shift the
window left one position, discarding the oldest value, and put the new
prediction at the tail). -/
def roll_predict (model : List ℚ → ℚ) : List ℚ → ℕ → List ℚ
  | _, 0 => []
  | w, h + 1 =>
    let next := model w
    next :: roll_predict model (w.tail ++ [next]) h

/-- `pd.date_range(start=last_date + offset, periods=horizon, freq=freq)` with
`offset` one granularity step: timestamps `last_date + 1, …, last_date + horizon`
at the working granularity. -/
def forecast_index (last_date : ℤ) (horizon : ℕ) : List ℤ :=
  (List.range horizon).map fun i : ℕ => last_date + 1 + (i : ℤ)

/-- `FinancialPredictor.predict_stock_price(price_series, forecast_days)` on the
processed (post-resampling) series.  `fit X y` is the pluggable regression
capability: it returns the fitted model as a window → value function.  Raising
`ValueError("历史数据不足…")` is modelled as `Except.error`. -/
def predict_stock_price (fit : List (List ℚ) → List ℚ → (List ℚ → ℚ))
    (price_series : List (ℤ × ℚ)) (forecast_days : ℕ) :
    Except String (List (ℤ × ℚ)) :=
  let processed_data := price_series
  let available_sequence_length : ℤ := (processed_data.length : ℤ) - 1
  if available_sequence_length < 1 then
    Except.error "insufficient history"
  else
    let L := actual_sequence_length processed_data.length
    let vals := processed_data.map Prod.snd
    let Xy := create_sequences vals L
    let model := fit Xy.1 Xy.2
    let last_sequence := vals.drop (vals.length - L)
    let forecast := roll_predict model last_sequence forecast_days
    let last_date := ((processed_data.getLast?).map Prod.fst).getD 0
    Except.ok ((forecast_index last_date forecast_days).zip forecast)

/-- `FinancialPredictor.predict_pe(pe_series, forecast_quarters)` on the
quarterly (post-resampling) series; identical loop structure to
`predict_stock_price` with quarterly granularity. -/
def predict_pe (fit : List (List ℚ) → List ℚ → (List ℚ → ℚ))
    (pe_series : List (ℤ × ℚ)) (forecast_quarters : ℕ) :
    Except String (List (ℤ × ℚ)) :=
  let quarterly_pe := pe_series
  let available_sequence_length : ℤ := (quarterly_pe.length : ℤ) - 1
  if available_sequence_length < 1 then
    Except.error "insufficient history"
  else
    let L := actual_sequence_length quarterly_pe.length
    let vals := quarterly_pe.map Prod.snd
    let Xy := create_sequences vals L
    let model := fit Xy.1 Xy.2
    let last_sequence := vals.drop (vals.length - L)
    let forecast := roll_predict model last_sequence forecast_quarters
    let last_date := ((quarterly_pe.getLast?).map Prod.fst).getD 0
    Except.ok ((forecast_index last_date forecast_quarters).zip forecast)

/-- The window-construction property of claim C1, for a series `S` and window
length `L`: exactly `len(S) - L` training pairs; pair `i` has feature vector of
length exactly `L` holding the ordered values at positions `i…i+L-1` and target
the value at position `i+L`. -/
def CreateSequencesSpec (S : List ℚ) (L : ℕ) : Prop :=
  (create_sequences S L).1.length = S.length - L ∧
  (create_sequences S L).2.length = S.length - L ∧
  ∀ i, i < S.length - L →
    ((create_sequences S L).1.getD i []).length = L ∧
    (∀ j, j < L → ((create_sequences S L).1.getD i []).getD j 0 = S.getD (i + j) 0) ∧
    (create_sequences S L).2.getD i 0 = S.getD (i + L) 0

/-- The forecast-output shape of claim C2: exactly `H` points, timestamps
continuing from the last input timestamp with one granularity step between
consecutive points (hence strictly increasing). -/
def ForecastOutputSpec (out : List (ℤ × ℚ)) (last_date : ℤ) (H : ℕ) : Prop :=
  out.length = H ∧
  out.map Prod.fst = forecast_index last_date H ∧
  List.Chain' (fun a b : ℤ × ℚ => b.1 = a.1 + 1) out ∧
  List.Chain' (fun a b : ℤ × ℚ => a.1 < b.1) out ∧
  (out.headD (0, 0)).1 = last_date + 1

end Predictor

namespace Calculator

/-- One row of the DataFrame returned by `calculate_pe_ratio`
(columns `close`, `EPS`, `PE`, `PE_MA`). -/
structure PERow where
  close : ℚ
  eps : ℚ
  pe : ℚ
  pe_ma : ℚ
  deriving DecidableEq, Repr, Inhabited

/-- `series.rolling(window=w).mean()`: position `i` holds the mean of the `w`
values ending at `i`, and `NaN` (here `none`) while fewer than `w` observations
are available (pandas requires `w ≥ 1`). -/
def rollingMean (w : ℕ) (xs : List ℚ) : List (Option ℚ) :=
  (List.range xs.length).map fun i =>
    if 1 ≤ w ∧ w ≤ i + 1 then
      some ((((xs.take (i + 1)).drop (i + 1 - w)).sum) / (w : ℚ))
    else none

/-- The EPS denominator `calculate_pe_ratio` actually uses: the web-scraped
value when it is available and positive, otherwise the documented fallback
constant `1.5`. -/
def eps_used (eps_web : Option ℚ) : ℚ :=
  match eps_web with
  | none => 3 / 2
  | some e => if e ≤ 0 then 3 / 2 else e

/-- Whether `calculate_pe_ratio` enters degraded mode (`st.info("EPS数据不可用…")`
is shown and the fallback constant substituted): the denominator is unavailable
or non-positive. -/
def degraded_mode (eps_web : Option ℚ) : Bool :=
  match eps_web with
  | none => true
  | some e => decide (e ≤ 0)

/-- `calculate_pe_ratio(stock_history, stock_code, period_days)`.  `closes` is
`stock_history['close']`; `eps_web` the result of `get_eps_from_web` (None =
unavailable).  Returns `None` for an empty history; otherwise the rows of the
result DataFrame (`pd.DataFrame({'close': …, 'EPS': eps, 'PE': [price/eps]*len,
'PE_MA': pe.rolling(period_days).mean()}).dropna()` — `dropna` removes the
leading rows whose `PE_MA` is `NaN`) together with the degraded-mode flag. -/
def calculate_pe_ratio (closes : List ℚ) (eps_web : Option ℚ) (period_days : ℕ) :
    Option (List PERow × Bool) :=
  if closes.isEmpty then none
  else
    let eps := eps_used eps_web
    let current_price := (closes.getLast?).getD 0
    let pe := current_price / eps
    let pe_series := List.replicate closes.length pe
    let ma := rollingMean period_days pe_series
    let rows := (List.range closes.length).filterMap fun i =>
      (ma.getD i none).map fun m => PERow.mk (closes.getD i 0) eps pe m
    some (rows, degraded_mode eps_web)

end Calculator

namespace Fetcher

/-- `max_retries = 3` (both `get_eps_from_web` and `get_stock_basic_info`). -/
def max_retries : ℕ := 3

/-- `get_eps_from_web`'s constant `retry_delay = 2` seconds. -/
def eps_retry_delay : ℚ := 2

/-- `get_stock_basic_info`'s initial `retry_delay = 3` seconds. -/
def basic_retry_delay : ℚ := 3

/-- The retry loop of `get_eps_from_web` over the attempt list.  `outcome r` is
attempt `r`'s result: `Except.error` a `RequestException`, `Except.ok v` a
successfully parsed page (`v = none` when the EPS tag is missing — returned
without retrying).  Returns (result, number of attempts made, sleep delays
between consecutive attempts). -/
def eps_run (outcome : ℕ → Except Unit (Option ℚ)) : List ℕ → Option ℚ × ℕ × List ℚ
  | [] => (none, 0, [])
  | r :: rest =>
    match outcome r with
    | Except.ok v => (v, 1, [])
    | Except.error _ =>
      match rest with
      | [] => (none, 1, [])
      | _ :: _ =>
        let t := eps_run outcome rest
        (t.1, t.2.1 + 1, eps_retry_delay :: t.2.2)

/-- `get_eps_from_web(stock_code)`: `for retry in range(max_retries)` with a
constant 2-second sleep between attempts. -/
def get_eps_from_web (outcome : ℕ → Except Unit (Option ℚ)) : Option ℚ × ℕ × List ℚ :=
  eps_run outcome (List.range max_retries)

/-- The retry loop of `get_stock_basic_info`: on failure sleep `delay` seconds,
then `retry_delay *= 2; retry_delay += random.uniform(0, 1)` — `jitter k` is
the `k`-th random draw. -/
def basic_run (outcome : ℕ → Except Unit Unit) (jitter : ℕ → ℚ) :
    ℕ → ℚ → List ℕ → Option Unit × ℕ × List ℚ
  | _, _, [] => (none, 0, [])
  | k, delay, r :: rest =>
    match outcome r with
    | Except.ok v => (some v, 1, [])
    | Except.error _ =>
      match rest with
      | [] => (none, 1, [])
      | _ :: _ =>
        let t := basic_run outcome jitter (k + 1) (delay * 2 + jitter k) rest
        (t.1, t.2.1 + 1, delay :: t.2.2)

/-- `get_stock_basic_info()`: `max_retries = 3`, initial delay 3 seconds,
doubling with additive jitter after each failed attempt. -/
def get_stock_basic_info (outcome : ℕ → Except Unit Unit) (jitter : ℕ → ℚ) :
    Option Unit × ℕ × List ℚ :=
  basic_run outcome jitter 0 basic_retry_delay (List.range max_retries)

/-- The inter-attempt delays are monotonically non-decreasing. -/
def NonDecreasingDelays (ds : List ℚ) : Prop := List.Chain' (fun a b => a ≤ b) ds

/-- The backoff discipline claimed by the spec: each delay doubles the previous
one, with a positive random jitter added. -/
def ExpBackoffJitter (ds : List ℚ) : Prop :=
  ∀ i, i + 1 < ds.length → ∃ j, 0 < j ∧ ds.getD (i + 1) 0 = 2 * ds.getD i 0 + j

end Fetcher

namespace Screening

/-- One row of the `basic_info` snapshot table handed to `select_stocks`,
together with the per-instrument data the scan reaches for: `k_data` is the
close-price history `get_stock_k_data` would return for this code (`none` = the
fetch failed), and `latest_close_field` / `price_trend_field` are the
`latest_close` / `price_trend` columns a simulated snapshot carries (`none` =
column absent, in which case the code falls back to a random draw).
Identifier-like string columns are modelled as `ℕ` tags. -/
structure StockRow where
  code : ℕ
  name : ℕ
  industry : ℕ
  pe : ℚ
  pb : ℚ
  turnover_rate : ℚ
  circulation_market_value : ℚ
  k_data : Option (List ℚ)
  latest_close_field : Option ℚ
  price_trend_field : Option ℚ
  deriving DecidableEq, Repr, Inhabited

/-- One entry of the `selected_stocks` result list.  Trend mode does not put
`ma5/ma20/ma60` in its dict, hence the `Option`. -/
structure SelectedStock where
  code : ℕ
  name : ℕ
  industry : ℕ
  pe : ℚ
  pb : ℚ
  turnover_rate : ℚ
  circulation_market_value : ℚ
  price_trend : ℚ
  latest_close : ℚ
  ma5 : Option ℚ
  ma20 : Option ℚ
  ma60 : Option ℚ
  deriving DecidableEq, Repr, Inhabited

/-- The dict returned by `calculate_technical_indicators`. -/
structure TechIndicators where
  is_ma_bullish : Bool
  price_trend : ℚ
  latest_close : ℚ
  ma5 : ℚ
  ma20 : ℚ
  ma60 : ℚ
  deriving DecidableEq, Repr

/-- The last row's value of `close.rolling(window=n).mean()`: the mean of the
trailing `n` closes. -/
def lastWindowMean (n : ℕ) (closes : List ℚ) : ℚ :=
  ((closes.drop (closes.length - n)).sum) / (n : ℚ)

/-- `calculate_technical_indicators(k_data)`: trailing moving averages of
windows 5/20/60, bullish alignment `ma5 > ma20 > ma60`, and the 20-day trend
`(latest - close[-20]) / close[-20] * 100` (0 when fewer than 20 rows). -/
def calculate_technical_indicators (closes : List ℚ) : TechIndicators :=
  let latest := (closes.getLast?).getD 0
  let ma5 := lastWindowMean 5 closes
  let ma20 := lastWindowMean 20 closes
  let ma60 := lastWindowMean 60 closes
  let price_trend :=
    if 20 ≤ closes.length then
      let past := closes.getD (closes.length - 20) 0
      (latest - past) / past * 100
    else 0
  ⟨decide (ma20 < ma5 ∧ ma60 < ma20), price_trend, latest, ma5, ma20, ma60⟩

/-- `selection_mode`: `'comprehensive'` or `'price_trend'`. -/
inductive SelectionMode where
  | comprehensive
  | price_trend
  deriving DecidableEq, Repr

/-- Trend mode, one iteration's data gathering: on the simulated path,
`stock.get('latest_close', random.uniform(2, 300))` and
`stock.get('price_trend', random.uniform(-10, 30))` (Python evaluates both
draws eagerly; `rngQ` holds the draws); on the real path, fetch `k_data`, skip
(`continue`) when the fetch failed or history is shorter than
`price_trend_days`, else `latest_close = k_data.iloc[-1]['close']`,
`past_close = k_data.iloc[-price_trend_days]['close']` and the percentage
change.  Returns `(latest_close, price_trend)` or `none` for a skip. -/
def trend_info (days : ℕ) (is_sim : Bool) (s : StockRow) (rngQ : List ℚ) :
    Option (ℚ × ℚ) :=
  if is_sim then
    some (s.latest_close_field.getD (rngQ.headD 0),
          s.price_trend_field.getD (rngQ.tail.headD 0))
  else
    match s.k_data with
    | none => none
    | some ks =>
      if ks.length < days then none
      else
        let latest := (ks.getLast?).getD 0
        let past := ks.getD (if days = 0 then 0 else ks.length - days) 0
        some (latest, (latest - past) / past * 100)

/-- Trend mode, one full iteration: gather, test
`price_trend_min <= price_trend <= price_trend_max`, and on success build the
result dict. -/
def trend_step (days : ℕ) (tmin tmax : ℚ) (is_sim : Bool) (s : StockRow)
    (rngQ : List ℚ) : Option SelectedStock :=
  match trend_info days is_sim s rngQ with
  | none => none
  | some lcpt =>
    if tmin ≤ lcpt.2 ∧ lcpt.2 ≤ tmax then
      some { code := s.code, name := s.name, industry := s.industry, pe := s.pe,
             pb := s.pb, turnover_rate := s.turnover_rate,
             circulation_market_value := s.circulation_market_value,
             price_trend := lcpt.2, latest_close := lcpt.1,
             ma5 := none, ma20 := none, ma60 := none }
    else none

/-- How far trend mode advances the random stream each iteration: two
`random.uniform` draws on the simulated path, none on the real path. -/
def trend_rng_adv (is_sim : Bool) (rngQ : List ℚ) : List ℚ :=
  if is_sim then rngQ.tail.tail else rngQ

/-- Comprehensive mode, one iteration's technical indicators: on the simulated
path the dict literal built from `random` draws (`rngQ` the `random.uniform`
stream, `rngB` the `random.choice([True, False])` stream); on the real path
fetch `k_data`, skip when the fetch failed or fewer than 60 rows, else
`calculate_technical_indicators`. -/
def comp_info (is_sim : Bool) (s : StockRow) (rngQ : List ℚ) (rngB : List Bool) :
    Option TechIndicators :=
  if is_sim then
    let lc := s.latest_close_field.getD (rngQ.headD 0)
    let pt := s.price_trend_field.getD (rngQ.tail.headD 0)
    some ⟨rngB.headD true, pt, lc,
          lc * (rngQ.tail.tail.headD 0),
          lc * (rngQ.tail.tail.tail.headD 0),
          lc * (rngQ.tail.tail.tail.tail.headD 0)⟩
  else
    match s.k_data with
    | none => none
    | some ks =>
      if ks.length < 60 then none
      else some (calculate_technical_indicators ks)

/-- Comprehensive mode, one full iteration: gather indicators, require
`is_ma_bullish and price_trend > 0`, and on success build the result dict. -/
def comp_step (is_sim : Bool) (s : StockRow) (rng : List ℚ × List Bool) :
    Option SelectedStock :=
  match comp_info is_sim s rng.1 rng.2 with
  | none => none
  | some t =>
    if t.is_ma_bullish = true ∧ 0 < t.price_trend then
      some { code := s.code, name := s.name, industry := s.industry, pe := s.pe,
             pb := s.pb, turnover_rate := s.turnover_rate,
             circulation_market_value := s.circulation_market_value,
             price_trend := t.price_trend, latest_close := t.latest_close,
             ma5 := some t.ma5, ma20 := some t.ma20, ma60 := some t.ma60 }
    else none

/-- How far comprehensive mode advances the random streams each iteration: five
`random.uniform` draws and one `random.choice` on the simulated path. -/
def comp_rng_adv (is_sim : Bool) (rng : List ℚ × List Bool) : List ℚ × List Bool :=
  if is_sim then (rng.1.tail.tail.tail.tail.tail, rng.2.tail) else rng

/-- The scan loop both modes of `select_stocks` share: iterate the (filtered)
snapshot rows in order; a `none` step is a `continue`; a `some c` step appends
`c` to `selected_stocks` and then `if len(selected_stocks) >= limit: break`.
`ρ` is the state of the `random` stream, advanced by `adv` each iteration. -/
def scan_loop {ρ : Type} (limit : ℤ) (step : StockRow → ρ → Option SelectedStock)
    (adv : ρ → ρ) : List StockRow → ρ → List SelectedStock → List SelectedStock
  | [], _, acc => acc
  | s :: rest, rng, acc =>
    match step s rng with
    | none => scan_loop limit step adv rest (adv rng) acc
    | some c =>
      let acc' := acc ++ [c]
      if limit ≤ (acc'.length : ℤ) then acc'
      else scan_loop limit step adv rest (adv rng) acc'

/-- `selected_stocks.sort(key=lambda x: x['price_trend'], reverse=True)`. -/
def byTrendDesc (a b : SelectedStock) : Prop := b.price_trend ≤ a.price_trend

/-- `selected_stocks.sort(key=lambda x: x['circulation_market_value'], reverse=True)`. -/
def byMcapDesc (a b : SelectedStock) : Prop :=
  b.circulation_market_value ≤ a.circulation_market_value

instance : DecidableRel byTrendDesc :=
  fun a b => inferInstanceAs (Decidable (b.price_trend ≤ a.price_trend))

instance : DecidableRel byMcapDesc :=
  fun a b =>
    inferInstanceAs (Decidable (b.circulation_market_value ≤ a.circulation_market_value))

instance : IsTotal SelectedStock byTrendDesc :=
  ⟨fun a b => le_total b.price_trend a.price_trend⟩

instance : IsTrans SelectedStock byTrendDesc :=
  ⟨fun _ _ _ h1 h2 => le_trans h2 h1⟩

instance : IsTotal SelectedStock byMcapDesc :=
  ⟨fun a b => le_total b.circulation_market_value a.circulation_market_value⟩

instance : IsTrans SelectedStock byMcapDesc :=
  ⟨fun _ _ _ h1 h2 => le_trans h2 h1⟩

/-- `select_stocks(basic_info, limit, selection_mode, price_trend_days,
price_trend_min, price_trend_max, pe_min, pe_max, pb_max, market_cap_min)`.
`is_sim` models `is_using_simulated_data` (the session-state check); `rngQ` and
`rngB` are the hidden `random.uniform` / `random.choice` streams.  Trend mode
scans all rows; comprehensive mode first applies the fundamental filter
`(pe > pe_min) & (pe < pe_max) & (pb < pb_max) & (cmv > market_cap_min)`.
Both end with a descending sort on their mode's key. -/
def select_stocks (basic_info : List StockRow) (limit : ℤ)
    (selection_mode : SelectionMode) (price_trend_days : ℕ)
    (price_trend_min price_trend_max : ℚ)
    (pe_min pe_max pb_max market_cap_min : ℚ)
    (is_sim : Bool) (rngQ : List ℚ) (rngB : List Bool) : List SelectedStock :=
  match selection_mode with
  | SelectionMode.price_trend =>
    List.insertionSort byTrendDesc
      (scan_loop limit (trend_step price_trend_days price_trend_min price_trend_max is_sim)
        (trend_rng_adv is_sim) basic_info rngQ [])
  | SelectionMode.comprehensive =>
    let filtered_basic := basic_info.filter fun s =>
      decide (pe_min < s.pe ∧ s.pe < pe_max ∧ s.pb < pb_max ∧
        market_cap_min < s.circulation_market_value)
    List.insertionSort byMcapDesc
      (scan_loop limit (comp_step is_sim) (comp_rng_adv is_sim)
        filtered_basic (rngQ, rngB) [])

/-- A one-row demo snapshot used by the concrete witnesses and counterexamples
below: a simulated-data row whose `latest_close` and `price_trend` columns are
present (close 10, trend +5%), passing the default fundamental filter. -/
def demo_row : StockRow :=
  { code := 1, name := 2, industry := 3, pe := 10, pb := 1, turnover_rate := 2,
    circulation_market_value := 2000000000, k_data := none,
    latest_close_field := some 10, price_trend_field := some 5 }

end Screening

open Predictor Calculator Fetcher Screening

/-! ## General list lemmas -/

theorem getD_map_range {α : Type} (f : ℕ → α) {n i : ℕ} (d : α) (h : i < n) :
    ((List.range n).map f).getD i d = f i := by
  rw [List.getD_eq_getElem?_getD, List.getElem?_map, List.getElem?_range h]
  rfl

theorem filterMap_range_if {α : Type} (f : ℕ → α) (c : ℕ) :
    ∀ n, (List.range n).filterMap (fun i => if c ≤ i then some (f i) else none) =
      (List.range (n - c)).map fun j => f (c + j) := by
  intro n
  induction n with
  | zero => simp
  | succ m ih =>
    rw [List.range_succ, List.filterMap_append, ih]
    by_cases h : c ≤ m
    · have h1 : m + 1 - c = (m - c) + 1 := by omega
      rw [h1, List.range_succ, List.map_append]
      have h2 : c + (m - c) = m := by omega
      simp [h, h2]
    · have h1 : m + 1 - c = 0 := by omega
      have h2 : m - c = 0 := by omega
      simp [h, h1, h2]

/-! ## Predictor lemmas -/

theorem roll_predict_length (model : List ℚ → ℚ) :
    ∀ (h : ℕ) (w : List ℚ), (roll_predict model w h).length = h := by
  intro h
  induction h with
  | zero => intro w; rfl
  | succ k ih => intro w; simp [roll_predict, ih]

theorem createSequencesSpec_all (S : List ℚ) (L : ℕ) : CreateSequencesSpec S L := by
  unfold CreateSequencesSpec create_sequences
  refine ⟨by simp, by simp, ?_⟩
  intro i hi
  have hiL : i + L ≤ S.length := by omega
  refine ⟨?_, ?_, ?_⟩
  · rw [getD_map_range _ _ hi]
    simp only [List.length_take, List.length_drop]
    omega
  · intro j hj
    rw [getD_map_range _ _ hi, List.getD_eq_getElem?_getD, List.getD_eq_getElem?_getD,
      List.getElem?_take, if_pos hj, List.getElem?_drop]
  · rw [getD_map_range _ _ hi]

theorem forecast_index_succ (last_date : ℤ) (H : ℕ) :
    forecast_index last_date (H + 1) = (last_date + 1) :: forecast_index (last_date + 1) H := by
  rw [forecast_index, forecast_index, List.range_succ_eq_map, List.map_cons, List.map_map]
  refine congrArg₂ _ (by simp) ?_
  apply List.map_congr_left
  intro i _
  simp only [Function.comp_apply]
  push_cast
  ring

theorem forecast_index_length (last_date : ℤ) (H : ℕ) :
    (forecast_index last_date H).length = H := by
  rw [forecast_index, List.length_map, List.length_range]

theorem forecast_index_chain : ∀ (H : ℕ) (last_date : ℤ),
    List.Chain' (fun a b : ℤ => b = a + 1) (forecast_index last_date H) := by
  intro H
  induction H with
  | zero => intro last_date; simp [forecast_index]
  | succ n ih =>
    intro last_date
    rw [forecast_index_succ]
    cases n with
    | zero => simp [forecast_index]
    | succ m =>
      rw [forecast_index_succ]
      refine List.chain'_cons.mpr ⟨rfl, ?_⟩
      rw [← forecast_index_succ]
      exact ih (last_date + 1)

theorem forecastOutputSpec_zip (last_date : ℤ) (H : ℕ) (forecast : List ℚ)
    (hf : forecast.length = H) (hH : 1 ≤ H) :
    ForecastOutputSpec ((forecast_index last_date H).zip forecast) last_date H := by
  have hfi : (forecast_index last_date H).length = H := forecast_index_length last_date H
  have hmapfst : ((forecast_index last_date H).zip forecast).map Prod.fst =
      forecast_index last_date H :=
    List.map_fst_zip _ _ (by rw [hfi, hf])
  have hchain : List.Chain' (fun a b : ℤ × ℚ => b.1 = a.1 + 1)
      ((forecast_index last_date H).zip forecast) := by
    have h1 := forecast_index_chain H last_date
    rw [← hmapfst] at h1
    exact (List.chain'_map Prod.fst).mp h1
  refine ⟨by rw [List.length_zip, hfi, hf, min_self], hmapfst, hchain, ?_, ?_⟩
  · exact hchain.imp fun a b hab => by rw [hab]; exact lt_add_one _
  · obtain ⟨n, rfl⟩ : ∃ n, H = n + 1 := ⟨H - 1, by omega⟩
    cases forecast with
    | nil => simp at hf
    | cons v vs =>
      rw [forecast_index_succ, List.zip_cons_cons, List.headD_cons]

theorem predict_stock_price_ok_eq (fit : List (List ℚ) → List ℚ → (List ℚ → ℚ))
    (series : List (ℤ × ℚ)) (H : ℕ) (h : 2 ≤ series.length) :
    predict_stock_price fit series H =
      Except.ok ((forecast_index (((series.getLast?).map Prod.fst).getD 0) H).zip
        (roll_predict
          (fit (create_sequences (series.map Prod.snd) (actual_sequence_length series.length)).1
               (create_sequences (series.map Prod.snd) (actual_sequence_length series.length)).2)
          ((series.map Prod.snd).drop
            ((series.map Prod.snd).length - actual_sequence_length series.length)) H)) := by
  have hcond : ¬ ((series.length : ℤ) - 1 < 1) := by omega
  simp only [predict_stock_price, hcond, if_false, List.length_map]

theorem predict_pe_ok_eq (fit : List (List ℚ) → List ℚ → (List ℚ → ℚ))
    (series : List (ℤ × ℚ)) (H : ℕ) (h : 2 ≤ series.length) :
    predict_pe fit series H =
      Except.ok ((forecast_index (((series.getLast?).map Prod.fst).getD 0) H).zip
        (roll_predict
          (fit (create_sequences (series.map Prod.snd) (actual_sequence_length series.length)).1
               (create_sequences (series.map Prod.snd) (actual_sequence_length series.length)).2)
          ((series.map Prod.snd).drop
            ((series.map Prod.snd).length - actual_sequence_length series.length)) H)) := by
  have hcond : ¬ ((series.length : ℤ) - 1 < 1) := by omega
  simp only [predict_pe, hcond, if_false, List.length_map]

/-! ## Claim C1 -/

/-- C1: For every input series `S` (after any requested resampling) with `len(S) ≥ 2`,
window construction with window length `L = min(configured maximum window 4, len(S) - 1)`
yields exactly `len(S) - L` training pairs, where pair `i` has as features the ordered
values at positions `i…i+L-1` (feature length exactly `L`) and as target the value at
position `i+L` — `_create_sequences` at the window length `predict_stock_price` and
`predict_pe` both pass it. -/
theorem c1_window_construction (S : List ℚ) (_hS : 2 ≤ S.length) :
    CreateSequencesSpec S (actual_sequence_length S.length) :=
  createSequencesSpec_all S (actual_sequence_length S.length)

theorem c1_window_construction_witness :
    2 ≤ ([10, 11, 12, 13, 14, 15] : List ℚ).length ∧
    CreateSequencesSpec [10, 11, 12, 13, 14, 15]
      (actual_sequence_length ([10, 11, 12, 13, 14, 15] : List ℚ).length) :=
  ⟨by decide, c1_window_construction [10, 11, 12, 13, 14, 15] (by decide)⟩

/-! ## Claim C2 -/

/-- C2: For every successful forecast call with horizon `H ≥ 1` (`predict_stock_price`
with `forecast_days = H`, or `predict_pe` with `forecast_quarters = H`), the output
contains exactly `H` predicted points whose timestamps are strictly increasing and
continue from the last input timestamp at the configured granularity step (one step
per point at the working granularity: +1 day for daily, +1 quarter for quarterly). -/
theorem c2_forecast_output (fit : List (List ℚ) → List ℚ → (List ℚ → ℚ))
    (series : List (ℤ × ℚ)) (H : ℕ) (hlen : 2 ≤ series.length) (hH : 1 ≤ H) :
    (∃ out, predict_stock_price fit series H = Except.ok out ∧
      ForecastOutputSpec out (((series.getLast?).map Prod.fst).getD 0) H) ∧
    (∃ out, predict_pe fit series H = Except.ok out ∧
      ForecastOutputSpec out (((series.getLast?).map Prod.fst).getD 0) H) :=
  ⟨⟨_, predict_stock_price_ok_eq fit series H hlen,
      forecastOutputSpec_zip _ _ _ (roll_predict_length _ _ _) hH⟩,
   ⟨_, predict_pe_ok_eq fit series H hlen,
      forecastOutputSpec_zip _ _ _ (roll_predict_length _ _ _) hH⟩⟩

theorem c2_forecast_output_witness :
    (2 ≤ ([((0:ℤ), (10:ℚ)), (1, 11)] : List (ℤ × ℚ)).length ∧ 1 ≤ 2) ∧
    ((∃ out, predict_stock_price (fun _ _ => fun _ => 0)
        [((0:ℤ), (10:ℚ)), (1, 11)] 2 = Except.ok out ∧
        ForecastOutputSpec out
          ((([((0:ℤ), (10:ℚ)), (1, 11)].getLast?).map Prod.fst).getD 0) 2) ∧
     (∃ out, predict_pe (fun _ _ => fun _ => 0)
        [((0:ℤ), (10:ℚ)), (1, 11)] 2 = Except.ok out ∧
        ForecastOutputSpec out
          ((([((0:ℤ), (10:ℚ)), (1, 11)].getLast?).map Prod.fst).getD 0) 2)) :=
  ⟨⟨by decide, by decide⟩, c2_forecast_output _ _ 2 (by decide) (by decide)⟩

/-! ## Claim C8 -/

/-- C8: `predict_stock_price` and `predict_pe` fail with the insufficient-history error
exactly when the (possibly resampled) input series has fewer than 2 points, equivalently
when `L = min(configured_max_window, len(series) - 1) < 1`; for every series of length
≥ 2 window construction proceeds without error, producing its `len - L ≥ 1` pairs. -/
theorem c8_insufficient_history (fit : List (List ℚ) → List ℚ → (List ℚ → ℚ))
    (series : List (ℤ × ℚ)) (H : ℕ) :
    (predict_stock_price fit series H = Except.error "insufficient history" ↔
      series.length < 2) ∧
    (predict_pe fit series H = Except.error "insufficient history" ↔
      series.length < 2) ∧
    (series.length < 2 ↔ actual_sequence_length series.length < 1) ∧
    (2 ≤ series.length →
      (∃ out, predict_stock_price fit series H = Except.ok out) ∧
      (∃ out, predict_pe fit series H = Except.ok out) ∧
      (create_sequences (series.map Prod.snd)
          (actual_sequence_length series.length)).1.length =
        series.length - actual_sequence_length series.length ∧
      1 ≤ (create_sequences (series.map Prod.snd)
          (actual_sequence_length series.length)).1.length) := by
  have hL : actual_sequence_length series.length = min 4 (series.length - 1) := rfl
  by_cases h : 2 ≤ series.length
  · have he1 := predict_stock_price_ok_eq fit series H h
    have he2 := predict_pe_ok_eq fit series H h
    refine ⟨iff_of_false (by rw [he1]; simp) (by omega),
            iff_of_false (by rw [he2]; simp) (by omega),
            by rw [hL]; constructor <;> (intro; omega),
            fun _ => ⟨⟨_, he1⟩, ⟨_, he2⟩, ?_, ?_⟩⟩
    · simp only [create_sequences, List.length_map, List.length_range]
    · simp only [create_sequences, List.length_map, List.length_range]
      rw [hL]
      omega
  · have hlt : series.length < 2 := by omega
    have hcond : ((series.length : ℤ) - 1 < 1) := by omega
    refine ⟨iff_of_true (by simp [predict_stock_price, hcond]) hlt,
            iff_of_true (by simp [predict_pe, hcond]) hlt,
            by rw [hL]; constructor <;> (intro; omega),
            by omega⟩

theorem c8_insufficient_history_witness :
    (([((0:ℤ), (7:ℚ))] : List (ℤ × ℚ)).length < 2 ∧
      predict_stock_price (fun _ _ => fun _ => 0) [((0:ℤ), (7:ℚ))] 3 =
        Except.error "insufficient history") ∧
    (2 ≤ ([((0:ℤ), (7:ℚ)), (1, 8)] : List (ℤ × ℚ)).length ∧
      ∃ out, predict_stock_price (fun _ _ => fun _ => 0) [((0:ℤ), (7:ℚ)), (1, 8)] 3 =
        Except.ok out) :=
  ⟨⟨by decide, (c8_insufficient_history (fun _ _ => fun _ => 0) [((0:ℤ), (7:ℚ))] 3).1.mpr
      (by decide)⟩,
   ⟨by decide, ((c8_insufficient_history (fun _ _ => fun _ => 0)
      [((0:ℤ), (7:ℚ)), (1, 8)] 3).2.2.2 (by decide)).1⟩⟩

/-! ## Calculator lemmas -/

theorem filterMap_congr_mem {α β : Type} {f g : α → Option β} :
    ∀ {l : List α}, (∀ a ∈ l, f a = g a) → l.filterMap f = l.filterMap g := by
  intro l
  induction l with
  | nil => intro _; rfl
  | cons a as ih =>
    intro h
    rw [List.filterMap_cons, List.filterMap_cons, h a (by simp),
      ih fun b hb => h b (by simp [hb])]

theorem rollingMean_replicate_getD (n len i : ℕ) (x : ℚ) (hn : 1 ≤ n) (hi : i < len) :
    (rollingMean n (List.replicate len x)).getD i none =
      if n - 1 ≤ i then some x else none := by
  rw [rollingMean, List.length_replicate, getD_map_range _ _ hi]
  by_cases h : n ≤ i + 1
  · rw [if_pos ⟨hn, h⟩, if_pos (by omega), List.take_replicate, List.drop_replicate,
      List.sum_replicate, show min (i + 1) len - (i + 1 - n) = n by omega, nsmul_eq_mul,
      mul_div_cancel_left₀ x (by exact_mod_cast (by omega : n ≠ 0))]
  · rw [if_neg (by tauto), if_neg (by omega)]

theorem calculate_pe_ratio_rows (closes : List ℚ) (eps_web : Option ℚ) (n : ℕ)
    (hne : closes ≠ []) (hn : 1 ≤ n) :
    calculate_pe_ratio closes eps_web n =
      some (((List.range (closes.length + 1 - n)).map fun j =>
        PERow.mk (closes.getD (n - 1 + j) 0) (eps_used eps_web)
          (((closes.getLast?).getD 0) / eps_used eps_web)
          (((closes.getLast?).getD 0) / eps_used eps_web)),
        degraded_mode eps_web) := by
  have hempty : closes.isEmpty = false := by
    cases closes with
    | nil => exact absurd rfl hne
    | cons a as => rfl
  simp only [calculate_pe_ratio, hempty, Bool.false_eq_true, if_false]
  refine congrArg some (congrArg₂ Prod.mk ?_ rfl)
  have hpoint : ∀ i ∈ List.range closes.length,
      ((rollingMean n (List.replicate closes.length
          (((closes.getLast?).getD 0) / eps_used eps_web))).getD i none).map
        (fun m => PERow.mk (closes.getD i 0) (eps_used eps_web)
          (((closes.getLast?).getD 0) / eps_used eps_web) m) =
      (if n - 1 ≤ i then
        some (PERow.mk (closes.getD i 0) (eps_used eps_web)
          (((closes.getLast?).getD 0) / eps_used eps_web)
          (((closes.getLast?).getD 0) / eps_used eps_web)) else none) := by
    intro i hi
    rw [List.mem_range] at hi
    rw [rollingMean_replicate_getD n closes.length i _ hn hi]
    by_cases h : n - 1 ≤ i
    · rw [if_pos h, if_pos h, Option.map_some']
    · rw [if_neg h, if_neg h, Option.map_none']
  rw [filterMap_congr_mem hpoint, filterMap_range_if,
    show closes.length - (n - 1) = closes.length + 1 - n by omega]

/-! ## Claim C7 -/

/-- C7: `calculate_pe_ratio` returns `None` when the price series is empty; when the
EPS denominator is unavailable or non-positive it substitutes the fixed fallback
constant `1.5` and flags degraded mode, and the resulting series is still well-formed:
every retained row has a full moving-average window, with the leading incomplete rows
dropped rather than zero-filled (row `j` of the result is source row `n - 1 + j`, and
there are `len + 1 - n` of them). -/
theorem c7_degraded_fallback (closes : List ℚ) (eps_web : Option ℚ) (n : ℕ)
    (hn : 1 ≤ n) :
    (closes = [] → calculate_pe_ratio closes eps_web n = none) ∧
    (closes ≠ [] → ∃ rows, calculate_pe_ratio closes eps_web n =
        some (rows, degraded_mode eps_web) ∧
      ((eps_web = none ∨ ∃ e, eps_web = some e ∧ e ≤ 0) →
        degraded_mode eps_web = true ∧ ∀ r ∈ rows, r.eps = 3 / 2) ∧
      rows.length = closes.length + 1 - n ∧
      (∀ j, j < rows.length → (rows.getD j default).close = closes.getD (n - 1 + j) 0)) := by
  constructor
  · intro h; subst h; rfl
  · intro hne
    refine ⟨_, calculate_pe_ratio_rows closes eps_web n hne hn, ?_, ?_, ?_⟩
    · intro hbad
      have h1 : degraded_mode eps_web = true := by
        rcases hbad with h | ⟨e, he, hle⟩
        · rw [h]; rfl
        · rw [he]; simp [degraded_mode, hle]
      have h2 : eps_used eps_web = 3 / 2 := by
        rcases hbad with h | ⟨e, he, hle⟩
        · rw [h]; rfl
        · rw [he]; simp [eps_used, hle]
      refine ⟨h1, ?_⟩
      intro r hr
      rw [List.mem_map] at hr
      obtain ⟨j, _, rfl⟩ := hr
      exact h2
    · rw [List.length_map, List.length_range]
    · intro j hj
      rw [List.length_map, List.length_range] at hj
      rw [getD_map_range _ _ hj]

theorem c7_degraded_fallback_witness :
    (1 ≤ 1 ∧ ([(4:ℚ), 6] : List ℚ) ≠ []) ∧
    (∃ rows, calculate_pe_ratio [(4:ℚ), 6] none 1 = some (rows, degraded_mode none) ∧
      (((none : Option ℚ) = none ∨ ∃ e, (none : Option ℚ) = some e ∧ e ≤ 0) →
        degraded_mode none = true ∧ ∀ r ∈ rows, r.eps = 3 / 2) ∧
      rows.length = ([(4:ℚ), 6] : List ℚ).length + 1 - 1 ∧
      (∀ j, j < rows.length →
        (rows.getD j default).close = ([(4:ℚ), 6] : List ℚ).getD (1 - 1 + j) 0)) :=
  ⟨⟨le_refl 1, by decide⟩, (c7_degraded_fallback [4, 6] none 1 (le_refl 1)).2 (by decide)⟩

/-! ## Claim C10 -/

/-- C10: for every non-empty price history and whatever EPS value is used, the PE
column of `calculate_pe_ratio`'s output holds the single constant value
latest close ÷ EPS broadcast over every row, and consequently `PE_MA` equals `PE` in
every retained row — the trailing moving average is the identity on this constant
series. -/
theorem c10_pe_ma_equals_pe (closes : List ℚ) (eps_web : Option ℚ) (n : ℕ)
    (hne : closes ≠ []) (hn : 1 ≤ n) :
    ∃ rows flag, calculate_pe_ratio closes eps_web n = some (rows, flag) ∧
      ∀ r ∈ rows, r.pe = ((closes.getLast?).getD 0) / eps_used eps_web ∧
        r.pe_ma = r.pe := by
  refine ⟨_, _, calculate_pe_ratio_rows closes eps_web n hne hn, ?_⟩
  intro r hr
  rw [List.mem_map] at hr
  obtain ⟨j, _, rfl⟩ := hr
  exact ⟨rfl, rfl⟩

theorem c10_pe_ma_equals_pe_witness :
    (([(5:ℚ)] : List ℚ) ≠ [] ∧ 1 ≤ 1) ∧
    (∃ rows flag, calculate_pe_ratio [(5:ℚ)] (some 2) 1 = some (rows, flag) ∧
      ∀ r ∈ rows, r.pe = (([(5:ℚ)] : List ℚ).getLast?.getD 0) / eps_used (some 2) ∧
        r.pe_ma = r.pe) :=
  ⟨⟨by decide, le_refl 1⟩, c10_pe_ma_equals_pe [5] (some 2) 1 (by decide) (le_refl 1)⟩

/-! ## Claim C6 -/

/-- C6 (amended): against a data source that always fails, `get_eps_from_web` and
`get_stock_basic_info` each make exactly their `max_retries = 3` attempts before giving
up and reporting exhaustion (`None`), and the delays between consecutive attempts are
monotonically non-decreasing; `get_stock_basic_info` doubles its delay each attempt and
adds the random jitter draw (`[3, 6 + jitter]`), while `get_eps_from_web` waits a
constant 2 seconds between attempts. -/
theorem c6_retry_exhaustion (eps_outcome : ℕ → Except Unit (Option ℚ))
    (basic_outcome : ℕ → Except Unit Unit) (jitter : ℕ → ℚ)
    (heps : ∀ k, eps_outcome k = Except.error ())
    (hbasic : ∀ k, basic_outcome k = Except.error ())
    (hj : 0 ≤ jitter 0) :
    get_eps_from_web eps_outcome = (none, 3, [2, 2]) ∧
    NonDecreasingDelays (get_eps_from_web eps_outcome).2.2 ∧
    get_stock_basic_info basic_outcome jitter = (none, 3, [3, 6 + jitter 0]) ∧
    NonDecreasingDelays (get_stock_basic_info basic_outcome jitter).2.2 ∧
    (0 < jitter 0 →
      ExpBackoffJitter (get_stock_basic_info basic_outcome jitter).2.2) := by
  have hr : List.range max_retries = [0, 1, 2] := rfl
  have h1 : get_eps_from_web eps_outcome = (none, 3, [2, 2]) := by
    simp only [get_eps_from_web, hr, eps_run, heps, eps_retry_delay]
  have h3 : get_stock_basic_info basic_outcome jitter = (none, 3, [3, 6 + jitter 0]) := by
    simp only [get_stock_basic_info, hr, basic_run, hbasic, basic_retry_delay]
    norm_num
  refine ⟨h1, ?_, h3, ?_, ?_⟩
  · rw [h1]
    simp [NonDecreasingDelays]
  · rw [h3]
    simp only [NonDecreasingDelays, List.chain'_cons, List.chain'_singleton, and_true]
    linarith
  · intro hpos
    rw [h3]
    intro i hi
    simp only [List.length_cons, List.length_nil] at hi
    have hi0 : i = 0 := by omega
    subst hi0
    refine ⟨jitter 0, hpos, ?_⟩
    simp only [List.getD_cons_succ, List.getD_cons_zero, zero_add]
    norm_num

theorem c6_retry_exhaustion_witness :
    ((∀ k : ℕ, (fun _ => (Except.error () : Except Unit (Option ℚ))) k =
        Except.error ()) ∧
     (∀ k : ℕ, (fun _ => (Except.error () : Except Unit Unit)) k = Except.error ()) ∧
     (0 : ℚ) ≤ 1) ∧
    (get_eps_from_web (fun _ => Except.error ()) = (none, 3, [2, 2]) ∧
     NonDecreasingDelays (get_eps_from_web
       (fun _ => (Except.error () : Except Unit (Option ℚ)))).2.2 ∧
     get_stock_basic_info (fun _ => Except.error ()) (fun _ => 1) =
       (none, 3, [3, 6 + (fun _ => (1:ℚ)) 0]) ∧
     NonDecreasingDelays (get_stock_basic_info (fun _ => Except.error ())
       (fun _ => 1)).2.2 ∧
     (0 < (fun _ => (1:ℚ)) 0 → ExpBackoffJitter
       (get_stock_basic_info (fun _ => Except.error ()) (fun _ => 1)).2.2)) :=
  ⟨⟨fun _ => rfl, fun _ => rfl, by decide⟩,
   c6_retry_exhaustion (fun _ => Except.error ()) (fun _ => Except.error ())
     (fun _ => 1) (fun _ => rfl) (fun _ => rfl) (by decide)⟩

/-- C6 counterexample: the claim's backoff discipline (delay doubling each attempt with
a positive jitter added) fails for `get_eps_from_web` — against an always-failing
source its inter-attempt delays are the constant `[2, 2]`, and no positive jitter `j`
satisfies `2 = 2 * 2 + j`. -/
theorem c6_counterexample :
    get_eps_from_web (fun _ => Except.error ()) = (none, 3, [2, 2]) ∧
    ¬ ExpBackoffJitter (get_eps_from_web
      (fun _ => (Except.error () : Except Unit (Option ℚ)))).2.2 := by
  have h1 : get_eps_from_web (fun _ => (Except.error () : Except Unit (Option ℚ))) =
      (none, 3, [2, 2]) := by
    simp only [get_eps_from_web, eps_run, eps_retry_delay,
      show List.range max_retries = [0, 1, 2] from rfl]
  refine ⟨h1, ?_⟩
  rw [h1]
  intro hbad
  obtain ⟨j, hj, heq⟩ := hbad 0 (by norm_num)
  simp only [List.getD_cons_succ, List.getD_cons_zero, zero_add] at heq
  norm_num at heq
  linarith

/-! ## Screening lemmas -/

theorem scan_loop_length_le {ρ : Type} (limit : ℤ)
    (step : StockRow → ρ → Option SelectedStock) (adv : ρ → ρ) :
    ∀ (stocks : List StockRow) (rng : ρ) (acc : List SelectedStock),
      (acc.length : ℤ) < limit →
      ((scan_loop limit step adv stocks rng acc).length : ℤ) ≤ limit := by
  intro stocks
  induction stocks with
  | nil =>
    intro rng acc h
    rw [scan_loop]
    omega
  | cons s rest ih =>
    intro rng acc h
    rw [scan_loop]
    cases hs : step s rng with
    | none => exact ih _ _ h
    | some c =>
      simp only
      by_cases hl : limit ≤ (((acc ++ [c]).length : ℕ) : ℤ)
      · rw [if_pos hl]
        simp only [List.length_append, List.length_singleton] at *
        push_cast at *
        omega
      · rw [if_neg hl]
        refine ih _ _ ?_
        simp only [List.length_append, List.length_singleton] at *
        push_cast at *
        omega

theorem scan_loop_mem {ρ : Type} (limit : ℤ)
    (step : StockRow → ρ → Option SelectedStock) (adv : ρ → ρ) :
    ∀ (stocks : List StockRow) (rng : ρ) (acc : List SelectedStock)
      (c : SelectedStock), c ∈ scan_loop limit step adv stocks rng acc →
      c ∈ acc ∨ ∃ s rng', s ∈ stocks ∧ step s rng' = some c := by
  intro stocks
  induction stocks with
  | nil =>
    intro rng acc c hc
    rw [scan_loop] at hc
    exact Or.inl hc
  | cons s rest ih =>
    intro rng acc c hc
    rw [scan_loop] at hc
    cases hs : step s rng with
    | none =>
      rw [hs] at hc
      rcases ih _ _ _ hc with h | ⟨s', rng', hs', hstep⟩
      · exact Or.inl h
      · exact Or.inr ⟨s', rng', List.mem_cons_of_mem _ hs', hstep⟩
    | some c' =>
      rw [hs] at hc
      simp only at hc
      have hsplit : c ∈ acc ++ [c'] → c ∈ acc ∨ c = c' := by
        intro h
        rcases List.mem_append.mp h with h | h
        · exact Or.inl h
        · exact Or.inr (List.mem_singleton.mp h)
      by_cases hl : limit ≤ (((acc ++ [c']).length : ℕ) : ℤ)
      · rw [if_pos hl] at hc
        rcases hsplit hc with h | rfl
        · exact Or.inl h
        · exact Or.inr ⟨s, rng, List.mem_cons_self _ _, hs⟩
      · rw [if_neg hl] at hc
        rcases ih _ _ _ hc with h | ⟨s', rng', hs', hstep⟩
        · rcases hsplit h with h' | rfl
          · exact Or.inl h'
          · exact Or.inr ⟨s, rng, List.mem_cons_self _ _, hs⟩
        · exact Or.inr ⟨s', rng', List.mem_cons_of_mem _ hs', hstep⟩

theorem scan_loop_early_exit {ρ : Type} (limit : ℤ)
    (step : StockRow → ρ → Option SelectedStock) (adv : ρ → ρ) :
    ∀ (pre : List StockRow) (rng : ρ) (acc : List SelectedStock),
      (acc.length : ℤ) < limit →
      limit ≤ ((scan_loop limit step adv pre rng acc).length : ℤ) →
      ∀ post, scan_loop limit step adv (pre ++ post) rng acc =
        scan_loop limit step adv pre rng acc := by
  intro pre
  induction pre with
  | nil =>
    intro rng acc hacc hlim post
    rw [scan_loop] at hlim
    omega
  | cons s rest ih =>
    intro rng acc hacc hlim post
    rw [List.cons_append, scan_loop, scan_loop] at *
    cases hs : step s rng with
    | none =>
      rw [hs] at hlim
      exact ih _ _ hacc hlim post
    | some c =>
      rw [hs] at hlim
      simp only at hlim ⊢
      split_ifs at hlim ⊢ with hl
      · rfl
      · refine ih _ _ ?_ hlim post
        simp only [List.length_append, List.length_singleton] at hl ⊢
        push_cast at hl ⊢
        omega

theorem scan_loop_rng_irrelevant {ρ : Type} (limit : ℤ)
    (step : StockRow → ρ → Option SelectedStock) (adv : ρ → ρ)
    (hstep : ∀ s r r', step s r = step s r') :
    ∀ (stocks : List StockRow) (rng rng' : ρ) (acc : List SelectedStock),
      scan_loop limit step adv stocks rng acc =
        scan_loop limit step adv stocks rng' acc := by
  intro stocks
  induction stocks with
  | nil => intro rng rng' acc; rw [scan_loop, scan_loop]
  | cons s rest ih =>
    intro rng rng' acc
    rw [scan_loop, scan_loop, hstep s rng rng']
    cases hs : step s rng' with
    | none => exact ih _ _ _
    | some c =>
      simp only
      by_cases hl : limit ≤ (((acc ++ [c]).length : ℕ) : ℤ)
      · rw [if_pos hl, if_pos hl]
      · rw [if_neg hl, if_neg hl]
        exact ih _ _ _

theorem scan_loop_all_none {ρ : Type} (limit : ℤ)
    (step : StockRow → ρ → Option SelectedStock) (adv : ρ → ρ)
    (hstep : ∀ s r, step s r = none) :
    ∀ (stocks : List StockRow) (rng : ρ),
      scan_loop limit step adv stocks rng [] = [] := by
  intro stocks
  induction stocks with
  | nil => intro rng; rfl
  | cons s rest ih => intro rng; rw [scan_loop, hstep s rng]; exact ih _

theorem trend_step_some_bounds (days : ℕ) (tmin tmax : ℚ) (is_sim : Bool)
    (s : StockRow) (rngQ : List ℚ) (c : SelectedStock)
    (h : trend_step days tmin tmax is_sim s rngQ = some c) :
    tmin ≤ c.price_trend ∧ c.price_trend ≤ tmax := by
  rw [trend_step] at h
  cases hinfo : trend_info days is_sim s rngQ with
  | none => rw [hinfo] at h; exact absurd h (by simp)
  | some lcpt =>
    rw [hinfo] at h
    simp only at h
    split_ifs at h with hcond
    rw [Option.some.injEq] at h
    subst h
    exact hcond

theorem comp_step_some_fields (is_sim : Bool) (s : StockRow)
    (rng : List ℚ × List Bool) (c : SelectedStock)
    (h : comp_step is_sim s rng = some c) :
    c.pe = s.pe ∧ c.pb = s.pb ∧
      c.circulation_market_value = s.circulation_market_value := by
  rw [comp_step] at h
  cases hinfo : comp_info is_sim s rng.1 rng.2 with
  | none => rw [hinfo] at h; exact absurd h (by simp)
  | some t =>
    rw [hinfo] at h
    simp only at h
    split_ifs at h with hcond
    rw [Option.some.injEq] at h
    subst h
    exact ⟨rfl, rfl, rfl⟩

theorem trend_step_real_rng (days : ℕ) (tmin tmax : ℚ) (s : StockRow)
    (r r' : List ℚ) :
    trend_step days tmin tmax false s r = trend_step days tmin tmax false s r' :=
  rfl

theorem comp_step_real_rng (s : StockRow) (r r' : List ℚ × List Bool) :
    comp_step false s r = comp_step false s r' :=
  rfl

/-! ## Claim C3 -/

/-- C3 (amended): with mode `'price_trend'` and `limit ≥ 1`, `select_stocks` returns
at most `limit` candidates, every returned candidate's trend lies within
`[trend_min, trend_max]`, scanning stops early once `limit` candidates are accumulated
(rows after the break point cannot change the result), and the final returned list is
ordered by descending trend.  (With `limit ≤ 0` the count bound fails, because the
loop appends a candidate before testing its break condition — see the
counterexample.) -/
theorem c3_trend_mode (basic_info : List StockRow) (limit : ℤ)
    (days : ℕ) (tmin tmax pe_min pe_max pb_max mc_min : ℚ)
    (is_sim : Bool) (rngQ : List ℚ) (rngB : List Bool) (hlim : 1 ≤ limit) :
    ((select_stocks basic_info limit SelectionMode.price_trend days tmin tmax
        pe_min pe_max pb_max mc_min is_sim rngQ rngB).length : ℤ) ≤ limit ∧
    (∀ c ∈ select_stocks basic_info limit SelectionMode.price_trend days tmin tmax
        pe_min pe_max pb_max mc_min is_sim rngQ rngB,
      tmin ≤ c.price_trend ∧ c.price_trend ≤ tmax) ∧
    List.Sorted byTrendDesc (select_stocks basic_info limit
      SelectionMode.price_trend days tmin tmax pe_min pe_max pb_max mc_min
      is_sim rngQ rngB) ∧
    (∀ pre post, basic_info = pre ++ post →
      limit ≤ ((scan_loop limit (trend_step days tmin tmax is_sim)
        (trend_rng_adv is_sim) pre rngQ []).length : ℤ) →
      select_stocks basic_info limit SelectionMode.price_trend days tmin tmax
        pe_min pe_max pb_max mc_min is_sim rngQ rngB =
      select_stocks pre limit SelectionMode.price_trend days tmin tmax
        pe_min pe_max pb_max mc_min is_sim rngQ rngB) := by
  have hacc : (([] : List SelectedStock).length : ℤ) < limit := by
    simp only [List.length_nil, Nat.cast_zero]
    omega
  refine ⟨?_, ?_, ?_, ?_⟩
  · simp only [select_stocks]
    rw [(List.perm_insertionSort byTrendDesc _).length_eq]
    exact scan_loop_length_le _ _ _ basic_info rngQ [] hacc
  · intro c hc
    simp only [select_stocks] at hc
    rw [(List.perm_insertionSort byTrendDesc _).mem_iff] at hc
    rcases scan_loop_mem _ _ _ _ _ _ _ hc with h | ⟨s, rng', _, hstep⟩
    · exact absurd h (List.not_mem_nil c)
    · exact trend_step_some_bounds _ _ _ _ _ _ _ hstep
  · simp only [select_stocks]
    exact List.sorted_insertionSort byTrendDesc _
  · intro pre post hsplit hlimreached
    subst hsplit
    simp only [select_stocks]
    rw [scan_loop_early_exit _ _ _ pre rngQ [] hacc hlimreached post]

theorem c3_trend_mode_witness :
    (1 ≤ (3:ℤ)) ∧
    (((select_stocks [demo_row] 3 SelectionMode.price_trend 20 0 100 0 30 5
        1000000000 true [] []).length : ℤ) ≤ 3 ∧
    (∀ c ∈ select_stocks [demo_row] 3 SelectionMode.price_trend 20 0 100 0 30 5
        1000000000 true [] [],
      (0:ℚ) ≤ c.price_trend ∧ c.price_trend ≤ 100) ∧
    List.Sorted byTrendDesc (select_stocks [demo_row] 3 SelectionMode.price_trend
      20 0 100 0 30 5 1000000000 true [] []) ∧
    (∀ pre post, [demo_row] = pre ++ post →
      (3:ℤ) ≤ ((scan_loop 3 (trend_step 20 0 100 true)
        (trend_rng_adv true) pre [] []).length : ℤ) →
      select_stocks [demo_row] 3 SelectionMode.price_trend 20 0 100 0 30 5
        1000000000 true [] [] =
      select_stocks pre 3 SelectionMode.price_trend 20 0 100 0 30 5
        1000000000 true [] [])) :=
  ⟨by decide,
   c3_trend_mode [demo_row] 3 20 0 100 0 30 5 1000000000 true [] [] (by decide)⟩

/-- C3 counterexample: with `limit = 0` the trend-mode loop appends a matching
candidate before testing its break condition, so the call returns one candidate —
more than `limit`. -/
theorem c3_counterexample :
    ¬ (((select_stocks [demo_row] 0 SelectionMode.price_trend 20 0 100 0 30 5
        1000000000 true [] []).length : ℤ) ≤ 0) := by
  decide

/-! ## Claim C4 -/

/-- C4: with mode `'comprehensive'`, `select_stocks` never returns a candidate whose
PE is outside the open interval `(pe_min, pe_max)`, or whose PB exceeds `pb_max`, or
whose market value is below `market_cap_min` (the fundamental pre-filter guarantees
the strict bounds `pe_min < pe < pe_max`, `pb < pb_max`, `cmv > market_cap_min`), and
the returned list is ordered by descending market value. -/
theorem c4_comprehensive_mode (basic_info : List StockRow) (limit : ℤ)
    (days : ℕ) (tmin tmax pe_min pe_max pb_max mc_min : ℚ)
    (is_sim : Bool) (rngQ : List ℚ) (rngB : List Bool) :
    (∀ c ∈ select_stocks basic_info limit SelectionMode.comprehensive days tmin tmax
        pe_min pe_max pb_max mc_min is_sim rngQ rngB,
      pe_min < c.pe ∧ c.pe < pe_max ∧ c.pb < pb_max ∧
        mc_min < c.circulation_market_value) ∧
    List.Sorted byMcapDesc (select_stocks basic_info limit
      SelectionMode.comprehensive days tmin tmax pe_min pe_max pb_max mc_min
      is_sim rngQ rngB) := by
  constructor
  · intro c hc
    simp only [select_stocks] at hc
    rw [(List.perm_insertionSort byMcapDesc _).mem_iff] at hc
    rcases scan_loop_mem _ _ _ _ _ _ _ hc with h | ⟨s, rng', hs, hstep⟩
    · exact absurd h (List.not_mem_nil c)
    · obtain ⟨hpe, hpb, hmc⟩ := comp_step_some_fields _ _ _ _ hstep
      rw [List.mem_filter] at hs
      have hf := of_decide_eq_true hs.2
      rw [hpe, hpb, hmc]
      exact hf
  · simp only [select_stocks]
    exact List.sorted_insertionSort byMcapDesc _

theorem c4_comprehensive_mode_witness :
    ((∀ c ∈ select_stocks [demo_row] 10 SelectionMode.comprehensive 20 0 100 0 30 5
        1000000000 true [] [true],
      (0:ℚ) < c.pe ∧ c.pe < 30 ∧ c.pb < 5 ∧
        (1000000000:ℚ) < c.circulation_market_value) ∧
      List.Sorted byMcapDesc (select_stocks [demo_row] 10
        SelectionMode.comprehensive 20 0 100 0 30 5 1000000000 true [] [true])) ∧
    (select_stocks [demo_row] 10 SelectionMode.comprehensive 20 0 100 0 30 5
      1000000000 true [] [true]).length = 1 :=
  ⟨c4_comprehensive_mode [demo_row] 10 20 0 100 0 30 5 1000000000 true [] [true],
   by decide⟩

/-! ## Claim C5 -/

/-- C5 (amended): on the real-data path (`is_using_simulated_data = false`) two runs
of `select_stocks` on the identical snapshot table and identical criteria return the
identical ordered candidate list, in either screening mode — the selection decision
consumes no randomness there.  On the simulated-data path the decision does consume
`random` draws (`random.choice([True, False])` for `is_ma_bullish`, `random.uniform`
defaults for missing columns), so two runs may differ — see the counterexample. -/
theorem c5_real_path_deterministic (basic_info : List StockRow) (limit : ℤ)
    (mode : SelectionMode) (days : ℕ) (tmin tmax pe_min pe_max pb_max mc_min : ℚ)
    (rngQ rngQ' : List ℚ) (rngB rngB' : List Bool) :
    select_stocks basic_info limit mode days tmin tmax pe_min pe_max pb_max mc_min
      false rngQ rngB =
    select_stocks basic_info limit mode days tmin tmax pe_min pe_max pb_max mc_min
      false rngQ' rngB' := by
  cases mode with
  | price_trend =>
    simp only [select_stocks]
    rw [scan_loop_rng_irrelevant _ _ _
      (fun s r r' => trend_step_real_rng days tmin tmax s r r') basic_info rngQ rngQ' []]
  | comprehensive =>
    simp only [select_stocks]
    rw [scan_loop_rng_irrelevant _ _ _
      (fun s r r' => comp_step_real_rng s r r') _ (rngQ, rngB) (rngQ', rngB') []]

/-- C5 counterexample: on the simulated-data path the comprehensive-mode inclusion
decision consumes a `random.choice([True, False])` draw (`is_ma_bullish`), so two runs
of `select_stocks` on the identical snapshot and identical criteria, differing only in
the hidden random stream, return different candidate lists. -/
theorem c5_counterexample :
    select_stocks [demo_row] 10 SelectionMode.comprehensive 20 0 100 0 30 5
        1000000000 true [] [true] ≠
    select_stocks [demo_row] 10 SelectionMode.comprehensive 20 0 100 0 30 5
        1000000000 true [] [false] := by
  intro h
  have h1 : (select_stocks [demo_row] 10 SelectionMode.comprehensive 20 0 100 0 30 5
      1000000000 true [] [true]).length = 1 := by decide
  have h2 : (select_stocks [demo_row] 10 SelectionMode.comprehensive 20 0 100 0 30 5
      1000000000 true [] [false]).length = 0 := by decide
  rw [h, h2] at h1
  exact absurd h1 (by decide)

/-! ## Claim C9 -/

/-- C9 (amended): `select_stocks` performs no validation of its criteria bounds — the
code has no `InvalidCriteria` failure path.  With malformed bounds the scan condition
is unsatisfiable and the call completes normally, silently returning the empty list
(indistinguishable from zero matches): trend mode whenever
`price_trend_min > price_trend_max`, comprehensive mode whenever `pe_min ≥ pe_max`. -/
theorem c9_no_validation (basic_info : List StockRow) (limit : ℤ)
    (days : ℕ) (tmin tmax pe_min pe_max pb_max mc_min : ℚ)
    (is_sim : Bool) (rngQ : List ℚ) (rngB : List Bool) :
    (tmax < tmin →
      select_stocks basic_info limit SelectionMode.price_trend days tmin tmax
        pe_min pe_max pb_max mc_min is_sim rngQ rngB = []) ∧
    (pe_max ≤ pe_min →
      select_stocks basic_info limit SelectionMode.comprehensive days tmin tmax
        pe_min pe_max pb_max mc_min is_sim rngQ rngB = []) := by
  constructor
  · intro hbad
    have hstep : ∀ s r, trend_step days tmin tmax is_sim s r = none := by
      intro s r
      rw [trend_step]
      cases trend_info days is_sim s r with
      | none => rfl
      | some lcpt =>
        simp only
        rw [if_neg]
        rintro ⟨h1, h2⟩
        linarith
    simp only [select_stocks]
    rw [scan_loop_all_none _ _ _ hstep basic_info rngQ]
    rfl
  · intro hbad
    simp only [select_stocks]
    have hfilter : basic_info.filter (fun s =>
        decide (pe_min < s.pe ∧ s.pe < pe_max ∧ s.pb < pb_max ∧
          mc_min < s.circulation_market_value)) = [] := by
      rw [List.filter_eq_nil_iff]
      intro s _
      simp only [decide_eq_true_eq, not_and]
      intro h1 h2
      linarith
    rw [hfilter, scan_loop]
    rfl

theorem c9_no_validation_witness :
    ((0:ℚ) < 10 ∧
      select_stocks [demo_row] 10 SelectionMode.price_trend 20 10 0 0 30 5
        1000000000 true [] [] = []) ∧
    ((30:ℚ) ≤ 30 ∧
      select_stocks [demo_row] 10 SelectionMode.comprehensive 20 0 100 30 30 5
        1000000000 true [] [] = []) :=
  ⟨⟨by decide, (c9_no_validation [demo_row] 10 20 10 0 0 30 5 1000000000
      true [] []).1 (by decide)⟩,
   ⟨by decide, (c9_no_validation [demo_row] 10 20 0 100 30 30 5 1000000000
      true [] []).2 (by decide)⟩⟩

/-- C9 counterexample: with `price_trend_min = 10 > price_trend_max = 0` the requested
operation is not aborted by any typed failure — `select_stocks` completes normally and
silently returns the empty list, although the identical snapshot yields a candidate
under sane bounds, so a caller cannot distinguish "malformed criteria" from "zero
matches". -/
theorem c9_counterexample :
    select_stocks [demo_row] 10 SelectionMode.price_trend 20 10 0 0 30 5 1000000000
        true [] [] = [] ∧
    select_stocks [demo_row] 10 SelectionMode.price_trend 20 0 100 0 30 5 1000000000
        true [] [] ≠ [] := by
  constructor
  · decide
  · decide
